import Mathlib

/-!
Verification development for the insurance-claim summariser (src/app.py).

The Python source is shallowly embedded below.  Text is modelled as
`String` (lists of characters internally); Python regex searches that the
code performs through `re.search` are modelled as abstract match oracles
(`Pat`), i.e. functions from the searched text to an optional match, since
`extract_field` only consumes the resulting match object.  The fixed
regexes appearing literally inside the pipeline (the label splitter, the
monetary matchers, the tabular row recognisers) are embedded as executable
Lean functions or as terms of a small backtracking regex engine, faithful
to the leftmost, first-alternative, greedy/lazy semantics of the `re`
module on the character classes they use (ASCII model: the source is only
exercised on ASCII document text; unicode categories are not modelled).
-/

namespace ClaimSum

/-- Python whitespace class for `\s`, `str.strip` and friends (ASCII part). -/
def pyWs (c : Char) : Bool :=
  c = ' ' || c = '\t' || c = '\n' || c = '\r' || c = '\x0b' || c = '\x0c'

/-- ASCII decimal digit, modelling `str.isdigit` / `\d` on ASCII text. -/
def isDigitCh (c : Char) : Bool := '0' ≤ c && c ≤ '9'

/-- ASCII letter, modelling `str.isalpha` / `[A-Za-z]` on ASCII text. -/
def isAlphaCh (c : Char) : Bool := ('a' ≤ c && c ≤ 'z') || ('A' ≤ c && c ≤ 'Z')

/-- Regex word character `\w` (ASCII): letter, digit or underscore. -/
def isWordCh (c : Char) : Bool := isAlphaCh c || isDigitCh c || c = '_'

/-- ASCII lower-casing of one character, modelling `str.lower`. -/
def lowerCh (c : Char) : Char :=
  if 'A' ≤ c && c ≤ 'Z' then Char.ofNat (c.toNat + 32) else c

/-- ASCII lower-casing of a character list. -/
def lowerL (cs : List Char) : List Char := cs.map lowerCh

/-- Drop the maximal run of characters satisfying `p` from the end of a list. -/
def dropTrail (p : Char → Bool) : List Char → List Char
  | [] => []
  | c :: t =>
    cond (dropTrail p t).isEmpty (cond (p c) [] [c]) (c :: dropTrail p t)

/-- Python `str.strip()` on character lists: remove leading and trailing whitespace. -/
def stripWs (cs : List Char) : List Char := dropTrail pyWs (cs.dropWhile pyWs)

/-- Python `str.strip(chars)` for a given character set `p`. -/
def stripBoth (p : Char → Bool) (cs : List Char) : List Char :=
  dropTrail p (cs.dropWhile p)

/-- Model of `re.sub(r"\s+", " ", s)`: every maximal whitespace run becomes one space. -/
def collapseWs : List Char → List Char
  | [] => []
  | [c] => cond (pyWs c) [' '] [c]
  | c :: d :: r =>
    cond (pyWs c)
      (cond (pyWs d) (collapseWs (d :: r)) (' ' :: collapseWs (d :: r)))
      (c :: collapseWs (d :: r))

/-- Substring containment, modelling the Python `in` operator on strings. -/
def hasSubstr : List Char → List Char → Bool
  | [], sub => sub.isEmpty
  | c :: t, sub => List.isPrefixOf sub (c :: t) || hasSubstr t sub

/-- Fuelled worker for `replaceAll`. -/
def replaceAllAux : Nat → List Char → List Char → List Char → List Char
  | 0, cs, _, _ => cs
  | Nat.succ n, cs, pat, repl =>
    match cs with
    | [] => []
    | c :: t =>
      if !pat.isEmpty && List.isPrefixOf pat cs then
        repl ++ replaceAllAux n (List.drop pat.length cs) pat repl
      else c :: replaceAllAux n t pat repl

/-- Python `str.replace(pat, repl)`: non-overlapping left-to-right replacement.
The fuel equals the input length; every step consumes at least one character,
so the fuel never runs out. -/
def replaceAll (cs pat repl : List Char) : List Char :=
  replaceAllAux cs.length cs pat repl

/-! ## FieldExtractor (src/app.py lines 53 to 84, `extract_field`) -/

/-- Result of a successful `re.search`: the full matched text (`match.group(0)`)
and the tuple of capturing groups (`match.groups()`, `none` for a group that
did not participate). -/
structure MatchRes where
  group0 : String
  groups : List (Option String)
deriving DecidableEq

/-- Abstract regex oracle: `fun text => re.search(pattern, text, re.IGNORECASE | re.DOTALL)`.
The embedding treats each configured pattern as the function taking the searched
text to its optional match object, which is exactly how `extract_field` consumes it. -/
abbrev Pat := String → Option MatchRes

/-- The label alternatives of the `re.split` on line 66 to 70 of the source,
in source order.  The split there is case sensitive (no flags are passed). -/
def labelWords : List (List Char) :=
  [ "Branch".data, "Date".data, "Note".data, "Code".data, "Signature".data,
    "Time".data, "No.".data, "Number".data, "Claim".data, "Policy".data,
    "Name".data, "Gender".data, "Age".data, "Address".data, "Email".data,
    "Mobile".data, "Contact".data, "Phone".data, "Relationship".data,
    "Occupation".data ]

/-- Trailing `\b` test after an alternative `w` has been matched: a word
boundary holds between the last character of `w` and the following text
(absence of a following character counts as a non-word side). -/
def altEndOk (w rest : List Char) : Bool :=
  match w.getLast?, rest with
  | some lc, [] => isWordCh lc
  | some lc, c :: _ => xor (isWordCh lc) (isWordCh c)
  | none, _ => false

/-- Does some label alternative match at the current position with both
word boundaries?  Every alternative begins with a word character, so the
leading `\b` holds exactly when the previous character is absent or non-word. -/
def labelHere (cs : List Char) : Bool :=
  labelWords.any (fun w => List.isPrefixOf w cs && altEndOk w (List.drop w.length cs))

/-- Leftmost start index of a `\b(label alternatives)\b` match, scanning with
the previous character carried for the leading boundary test. -/
def findLabelIdx : Option Char → List Char → Option Nat
  | prev, [] =>
    let _ := prev
    none
  | prev, c :: t =>
    let boundary := match prev with
      | none => true
      | some p => !isWordCh p
    if boundary && labelHere (c :: t) then some 0
    else (findLabelIdx (some c) t).map (· + 1)

/-- Model of `re.split(r"\b(Branch|...)\b", v, maxsplit=1)[0]`: the text before
the leftmost label match, or the whole text when no label matches. -/
def labelSplit0 (cs : List Char) : List Char :=
  match findLabelIdx none cs with
  | some i => cs.take i
  | none => cs

/-- The stoplist of lines 71 to 75 of the source, in source order. -/
def stoplist : List (List Char) :=
  [ "of".data, "the".data, "of the".data, "name".data, "aadhar holder".data,
    "n".data, "claim".data, "-".data, "not mentioned".data, "rs".data,
    "no".data, "number".data, "date".data, "place".data, "contact".data,
    "address".data, "gender".data, "age".data, "mobile".data, "email".data,
    "phone".data, "details".data, "birth".data, "ion".data, "occu".data,
    "na".data, "nil".data ]

/-- The successive assignments to `clean_value` on lines 64 to 70 of the
source: whitespace collapse of the stripped group, then truncation at the
first label word, then a final strip. -/
def cleanedCandidate (s : List Char) : List Char :=
  stripWs (labelSplit0 (collapseWs (stripWs s)))

/-- The per-candidate pipeline of lines 63 to 81 of `extract_field`: cleaning,
label truncation, stoplist and length rejection, the literal NA check, and the
pure punctuation rejection.  `none` models `continue` (the candidate is
rejected), `some v` models `return`. -/
def tryCandidate (s : List Char) : Option (List Char) :=
  let v2 := cleanedCandidate s
  if stoplist.contains (lowerL v2) || (stripWs v2).length < 3 then none
  else if lowerL v2 = "na".data then some "NA".data
  else if v2.length < 5 && !(v2.any isDigitCh) && !(v2.any isAlphaCh) then none
  else some v2

/-- The loop `for group in match.groups()` of `extract_field`: falsy groups
(`None` or the empty string) are skipped; the first candidate surviving
`tryCandidate` is returned. -/
def tryGroups : List (Option String) → Option (List Char)
  | [] => none
  | g :: gs =>
    match g with
    | some s =>
      if s = "" then tryGroups gs
      else
        match tryCandidate s.data with
        | some v => some v
        | none => tryGroups gs
    | none => tryGroups gs

/-- Processing of one successful match inside `extract_field`.  Note that in
the source the final `return re.sub(r"\s+", " ", match.group(0).strip())` on
line 83 is reached both when the match has no capturing groups and when every
capturing group was rejected or falsy: `tryGroups [] = none` makes the two
cases coincide here. -/
def processMatch (m : MatchRes) : String :=
  match tryGroups m.groups with
  | some v => String.mk v
  | none => String.mk (collapseWs (stripWs m.group0.data))

/-- `extract_field(text, patterns)` from src/app.py lines 53 to 84. -/
def extract_field (text : String) : List Pat → String
  | [] => ""
  | p :: ps =>
    match p text with
    | some m => processMatch m
    | none => extract_field text ps

/-! ## SummaryBuilder (src/app.py lines 222 to 255 and the merge loops) -/

/-- One step of the scan of `re.sub(r"(\w)-\s+(\w)", r"\1\2", value)` (line 232
of the source), with fuel equal to the input length: a word character, then a
hyphen, then at least one whitespace character, then a word character, is
replaced by the two word characters; scanning resumes after the match. -/
def hyphenFixAux : Nat → List Char → List Char
  | 0, cs => cs
  | Nat.succ _, [] => []
  | Nat.succ n, c :: t =>
    match t with
    | '-' :: w :: rest =>
      if isWordCh c && pyWs w then
        match (w :: rest).dropWhile pyWs with
        | d :: tail =>
          if isWordCh d then c :: d :: hyphenFixAux n tail
          else c :: hyphenFixAux n t
        | [] => c :: hyphenFixAux n t
      else c :: hyphenFixAux n t
    | _ => c :: hyphenFixAux n t

/-- Model of the hyphenated-line-break repair on line 232 of the source. -/
def hyphenFix (cs : List Char) : List Char := hyphenFixAux cs.length cs

/-- Does one of the boilerplate alternatives of line 236 of the source match
at this position and extend to the end of the text?  The sub there is
case-insensitive; `Nationality` and `Claimant` must reach the end exactly,
the four `X.*` alternatives only need `X` as a prefix of the rest (their `.*$`
then consumes the remainder; values reaching this function are single-line,
because `extract_field` collapses all whitespace runs to single spaces). -/
def boilerHere (rest : List Char) : Bool :=
  let low := lowerL rest
  low = "nationality".data || low = "claimant".data ||
  List.isPrefixOf "spaarc".data low ||
  List.isPrefixOf "by submitting".data low ||
  List.isPrefixOf "neft mandate".data low ||
  List.isPrefixOf "insurance claim".data low

/-- Leftmost start of a boilerplate match, with the previous character carried
for the leading `\b` test (every alternative starts with a word character). -/
def findBoilerIdx : Option Char → List Char → Option Nat
  | _, [] => none
  | prev, c :: t =>
    let boundary := match prev with
      | none => true
      | some p => !isWordCh p
    if boundary && boilerHere (c :: t) then some 0
    else (findBoilerIdx (some c) t).map (· + 1)

/-- Model of lines 235 to 237 of the source: delete the trailing boilerplate
match (every match extends to the end of the string) and strip the result. -/
def stripBoilerplate (cs : List Char) : List Char :=
  match findBoilerIdx none cs with
  | some i => stripWs (cs.take i)
  | none => stripWs cs

/-- Decimal part check for the first monetary regex: after the dot, one or two
digits and then the end of the string. -/
def moneyDecimals (rest : List Char) : Bool :=
  !rest.isEmpty && rest.length ≤ 2 && rest.all isDigitCh

/-- Fuelled tail of the first monetary regex after the leading digit group:
`(,\d{3})*(\.\d{1,2})?$`.  Each comma must be followed by a maximal digit run
of exactly three digits (a longer or shorter run makes the whole Python regex
fail at this start, since every backtracking split leaves a digit where a
comma, a dot or the end is required). -/
def moneyGroupsTail : Nat → List Char → Bool
  | 0, cs => cs.isEmpty
  | Nat.succ n, cs =>
    match cs with
    | [] => true
    | ',' :: rest =>
      (rest.takeWhile isDigitCh).length = 3 && moneyGroupsTail n (rest.drop 3)
    | '.' :: rest => moneyDecimals rest
    | _ => false

/-- Model of `re.match(r"^\d{1,3}(,\d{3})*(\.\d{1,2})?$", v)` (line 248 of the
source): the maximal leading digit run has one to three digits (with a longer
run, every backtracking split of the Python regex fails), followed by comma
groups and an optional two-decimal fraction. -/
def matchMoneyGrouped (cs : List Char) : Bool :=
  let d1 := cs.takeWhile isDigitCh
  1 ≤ d1.length && d1.length ≤ 3 && moneyGroupsTail cs.length (cs.drop d1.length)

/-- Model of `re.match(r"^\d+(\.\d+)?$", v)` (line 250 of the source). -/
def matchMoneyPlain (cs : List Char) : Bool :=
  let d1 := cs.takeWhile isDigitCh
  !d1.isEmpty &&
    (match cs.drop d1.length with
     | [] => true
     | '.' :: rest => !rest.isEmpty && rest.all isDigitCh
     | _ => false)

/-- Character for a decimal digit value. -/
def digitChar (d : Nat) : Char := Char.ofNat (48 + d)

/-- Decimal digit characters of a natural number, with fuel. -/
def natDigitsAux : Nat → Nat → List Char
  | 0, _ => []
  | Nat.succ fuel, n =>
    if n < 10 then [digitChar n]
    else natDigitsAux fuel (n / 10) ++ [digitChar (n % 10)]

/-- Decimal digit characters of a natural number. -/
def natDigits (n : Nat) : List Char := natDigitsAux (n + 1) n

/-- Insert a comma before every further group of three digits, processing the
reversed digit list with a counter of digits already placed in the group. -/
def insertCommasGo : List Char → Nat → List Char
  | [], _ => []
  | c :: t, cnt =>
    if cnt = 3 then ',' :: c :: insertCommasGo t 1
    else c :: insertCommasGo t (cnt + 1)

/-- Model of the format `f"{n:,}"` for a non-negative integer: decimal digits
with thousands separators. -/
def groupDigits (n : Nat) : List Char :=
  (insertCommasGo (natDigits n).reverse 0).reverse

/-- Numeric value of a digit run (most significant first). -/
def natOfDigits (ds : List Char) : Nat :=
  ds.foldl (fun acc c => acc * 10 + (c.toNat - 48)) 0

/-- Model of `int(float(v))` for a string matching `^\d+(\.\d+)?$`: the value
of the digits before the dot.  Python `int` truncates the float toward zero,
which is exactly the integer part of the written decimal for every value
inside double precision, the only regime the pipeline is exercised on. -/
def intPartNat (cs : List Char) : Nat := natOfDigits (cs.takeWhile isDigitCh)

/-- The monetary field names of lines 240 to 244 of the source. -/
def money_fields : List (List Char) :=
  [ "estimated cost of repairs".data, "total repair cost".data,
    "repair estimate".data, "amount claimed".data, "claim amount".data,
    "sum insured".data, "approved amount".data, "depreciation amount".data ]

/-- The monetary prefixing of lines 246 to 251 of the source, applied to the
cleaned value of a monetary field. -/
def moneyNormalize (cs : List Char) : List Char :=
  if matchMoneyGrouped cs then "Rs. ".data ++ cs
  else if matchMoneyPlain cs then "Rs. ".data ++ groupDigits (intPartNat cs)
  else cs

/-- The per-value post-processing of lines 230 to 251 of `extract_summary`:
hyphenation repair, trailing-boilerplate strip, and monetary prefixing for
fields whose lower-cased name is in the monetary list. -/
def postProcessValue (field_name : String) (value : String) : String :=
  let v2 := stripBoilerplate (hyphenFix value.data)
  if money_fields.contains (lowerL field_name.data) then String.mk (moneyNormalize v2)
  else String.mk v2

/-- First value stored under a key in an association list, modelling Python
dict access. -/
def lookup : List (String × String) → String → Option String
  | [], _ => none
  | (k2, v2) :: t, k => if k2 = k then some v2 else lookup t k

/-- Python dict assignment `d[k] = v` on the association-list model: replace
the value in place when the key exists, append otherwise. -/
def setKey : List (String × String) → String → String → List (String × String)
  | [], k, v => [(k, v)]
  | (k2, v2) :: t, k, v =>
    if k2 = k then (k2, v) :: t else (k2, v2) :: setKey t k v

/-- The field loop of `extract_summary` (lines 226 to 253): for each
configured field in order, extract, skip blank values, post-process, store. -/
def extract_summary_go (text : String) :
    List (String × List Pat) → List (String × String) → List (String × String)
  | [], acc => acc
  | (name, pats) :: rest, acc =>
    let value := extract_field text pats
    if (stripWs value.data).isEmpty then extract_summary_go text rest acc
    else extract_summary_go text rest (setKey acc name (postProcessValue name value))

/-- `extract_summary(text, config)` from src/app.py lines 222 to 255, with the
configuration given as its ordered field list. -/
def extract_summary (text : String) (fields : List (String × List Pat)) :
    List (String × String) :=
  extract_summary_go text fields []

/-- One step of the merge loop of lines 435 to 437 of the source: a field of a
file summary is written into the combined summary only when the key is absent
or the present value strips to empty. -/
def mergeStep (combined : List (String × String)) (kv : String × String) :
    List (String × String) :=
  match lookup combined kv.1 with
  | none => setKey combined kv.1 kv.2
  | some old =>
    if (stripWs old.data).isEmpty then setKey combined kv.1 kv.2 else combined

/-- The merge of one file summary into the combined summary, in item order
(lines 435 to 437 of the source, repeated verbatim on lines 513 to 515, 535
to 537 and 572 to 574). -/
def mergeInto (combined file_summary : List (String × String)) :
    List (String × String) :=
  file_summary.foldl mergeStep combined

/-! ## RawBlockFormatter (src/app.py lines 86 to 220)

The six tabular recognisers use fixed regexes, embedded here as terms of a
small backtracking engine with Python `re` semantics on the constructs these
regexes use: leftmost match, alternatives in order, greedy and lazy
repetition by backtracking, character classes, capturing groups (last capture
wins; each group here captures at most once per match) and word boundaries.
The engine is fuelled; the fuel is generous for the document-sized inputs the
tool processes (a pathological input could exhaust it, which corresponds to
the catastrophic-backtracking risk the pipeline already has). -/

/-- Regex abstract syntax: empty, character class, concatenation, ordered
alternation, greedy star, lazy star, greedy option, capturing group, word
boundary. -/
inductive RE where
  | eps : RE
  | cls (p : Char → Bool) : RE
  | cat (a b : RE) : RE
  | alt (a b : RE) : RE
  | starG (a : RE) : RE
  | starL (a : RE) : RE
  | optG (a : RE) : RE
  | grp (i : Nat) (a : RE) : RE
  | wb : RE

/-- Greedy plus. -/
def rePlus (a : RE) : RE := .cat a (.starG a)

/-- Lazy plus. -/
def rePlusL (a : RE) : RE := .cat a (.starL a)

/-- Concatenation of a list of regexes. -/
def cats : List RE → RE
  | [] => .eps
  | [a] => a
  | a :: rest => .cat a (cats rest)

/-- Ordered alternation of a list of regexes (empty list never matches). -/
def alts : List RE → RE
  | [] => .cls (fun _ => false)
  | [a] => a
  | a :: rest => .alt a (alts rest)

/-- Literal string regex (case-sensitive). -/
def strRE (s : String) : RE := cats (s.data.map (fun c => .cls (fun x => x = c)))

/-- Literal string regex under `re.IGNORECASE` (ASCII case folding). -/
def strREIC (s : String) : RE :=
  cats (s.data.map (fun c => .cls (fun x => lowerCh x = lowerCh c)))

/-- Captured groups of a match attempt, latest capture first. -/
abbrev Caps := List (Nat × List Char)

/-- Value of a captured group; a group that did not participate yields the
empty string, as `re.findall` does. -/
def capGet : Caps → Nat → List Char
  | [], _ => []
  | (j, v) :: t, i => if j = i then v else capGet t i

/-- Backtracking matcher in continuation style.  `prev` is the character just
before the current position (for word boundaries), `cs` the remaining input.
The continuation receives the position after the sub-match.  Repetition of a
sub-expression is only continued while it consumes input, as in `re`. -/
def mrun : Nat → RE → Option Char → List Char → Caps →
    (Option Char → List Char → Caps → Option (List Char × Caps)) →
    Option (List Char × Caps)
  | 0, _, _, _, _, _ => none
  | Nat.succ fuel, r, prev, cs, caps, k =>
    match r with
    | .eps => k prev cs caps
    | .cls p =>
      match cs with
      | [] => none
      | c :: t => if p c then k (some c) t caps else none
    | .cat a b =>
      mrun fuel a prev cs caps (fun p2 cs2 caps2 => mrun fuel b p2 cs2 caps2 k)
    | .alt a b =>
      match mrun fuel a prev cs caps k with
      | some res => some res
      | none => mrun fuel b prev cs caps k
    | .starG a =>
      match mrun fuel a prev cs caps (fun p2 cs2 caps2 =>
          if cs2.length < cs.length then mrun fuel (.starG a) p2 cs2 caps2 k
          else none) with
      | some res => some res
      | none => k prev cs caps
    | .starL a =>
      match k prev cs caps with
      | some res => some res
      | none =>
        mrun fuel a prev cs caps (fun p2 cs2 caps2 =>
          if cs2.length < cs.length then mrun fuel (.starL a) p2 cs2 caps2 k
          else none)
    | .optG a =>
      match mrun fuel a prev cs caps k with
      | some res => some res
      | none => k prev cs caps
    | .grp i a =>
      mrun fuel a prev cs caps (fun p2 cs2 caps2 =>
        k p2 cs2 ((i, cs.take (cs.length - cs2.length)) :: caps2))
    | .wb =>
      let before := match prev with
        | none => false
        | some c => isWordCh c
      let after := match cs with
        | [] => false
        | c :: _ => isWordCh c
      if xor before after then k prev cs caps else none

/-- Anchored match attempt at the current position. -/
def matchHere (fuel : Nat) (r : RE) (prev : Option Char) (cs : List Char) :
    Option (List Char × Caps) :=
  mrun fuel r prev cs [] (fun _ rest caps => some (rest, caps))

/-- Engine fuel for an input: ample for the document-sized inputs the tool
processes. -/
def engineFuel (cs : List Char) : Nat :=
  1000 * (cs.length + 2) * (cs.length + 2)

/-- The scan of `re.findall`: try an anchored match at each position from the
left; on success record the group tuple and resume after the match (advancing
one character when the match is empty), on failure advance one character. -/
def scanAll (fuel : Nat) (r : RE) (ngroups : Nat) :
    Nat → Option Char → List Char → List (List (List Char))
  | 0, _, _ => []
  | Nat.succ sfuel, prev, cs =>
    match matchHere fuel r prev cs with
    | some (rest, caps) =>
      let tuple := (List.range ngroups).map (fun i => capGet caps (i + 1))
      if rest.length < cs.length then
        tuple :: scanAll fuel r ngroups sfuel
          ((cs.take (cs.length - rest.length)).getLast?) rest
      else
        match cs with
        | [] => [tuple]
        | c :: t => tuple :: scanAll fuel r ngroups sfuel (some c) t
    | none =>
      match cs with
      | [] => []
      | c :: t => scanAll fuel r ngroups sfuel (some c) t

/-- `re.findall(r, text)` for a pattern with `ngroups` capturing groups:
a list of group tuples, one per non-overlapping match, leftmost first. -/
def findall (r : RE) (ngroups : Nat) (cs : List Char) : List (List (List Char)) :=
  scanAll (engineFuel cs) r ngroups (cs.length + 1) none cs

/-- The scan of `re.sub(r, "", text)`: delete every non-overlapping match. -/
def subAllAux (fuel : Nat) (r : RE) : Nat → Option Char → List Char → List Char
  | 0, _, cs => cs
  | Nat.succ sfuel, prev, cs =>
    match matchHere fuel r prev cs with
    | some (rest, _) =>
      if rest.length < cs.length then
        subAllAux fuel r sfuel ((cs.take (cs.length - rest.length)).getLast?) rest
      else
        match cs with
        | [] => []
        | c :: t => c :: subAllAux fuel r sfuel (some c) t
    | none =>
      match cs with
      | [] => []
      | c :: t => c :: subAllAux fuel r sfuel (some c) t

/-- `re.sub(r, "", text)`. -/
def subAll (r : RE) (cs : List Char) : List Char :=
  subAllAux (engineFuel cs) r (cs.length + 1) none cs

/-- Python `str.splitlines` on the line breaks the pipeline sees (`\n`, `\r`,
`\r\n`; the rarer unicode breaks are not modelled), with fuel. -/
def splitLinesAux : Nat → List Char → List (List Char)
  | 0, _ => []
  | Nat.succ n, cs =>
    match cs with
    | [] => []
    | _ =>
      let line := cs.takeWhile (fun c => !(c = '\n' || c = '\r'))
      match cs.drop line.length with
      | [] => [line]
      | '\r' :: '\n' :: t => line :: splitLinesAux n t
      | _ :: t => line :: splitLinesAux n t

/-- Python `str.splitlines`. -/
def splitLines (cs : List Char) : List (List Char) :=
  splitLinesAux (cs.length + 1) cs

/-- Number of whitespace-separated words, modelling `len(s.split())`. -/
def wordCountAux : Nat → List Char → Nat
  | 0, _ => 0
  | Nat.succ n, cs =>
    match cs with
    | [] => 0
    | c :: t =>
      if pyWs c then wordCountAux n t
      else 1 + wordCountAux n (t.dropWhile (fun x => !pyWs x))

/-- Number of whitespace-separated words, modelling `len(s.split())`. -/
def wordCount (cs : List Char) : Nat := wordCountAux cs.length cs

/-- Does `re.match(r".*[\(\,:\-]$", buffer)` succeed?  The buffer never
contains a newline, so this holds exactly when its last character is an
opening parenthesis, comma, colon or hyphen. -/
def contMark (cs : List Char) : Bool :=
  match cs.getLast? with
  | some c => c = '(' || c = ',' || c = ':' || c = '-'
  | none => false

/-- The line-reconstruction loop of lines 99 to 113 of the source: strip each
line, skip blanks, merge a line into the buffer when the buffer ends with a
continuation mark or has fewer than three words, otherwise flush the buffer;
the final buffer is flushed at the end. -/
def fixLines : List (List Char) → List Char → List (List Char)
  | [], buffer => if buffer.isEmpty then [] else [buffer]
  | l :: rest, buffer =>
    let line := stripWs l
    if line.isEmpty then fixLines rest buffer
    else if buffer.isEmpty then fixLines rest line
    else if contMark buffer || wordCount buffer < 3 then
      fixLines rest (buffer ++ ' ' :: line)
    else buffer :: fixLines rest line

/-- The sub `re.sub(r'"\s*\n\s*"', ' ', v)` of line 118 of the source: a
quote, a whitespace run containing at least one newline, and a quote, become
one space (quotes are never whitespace, so the match exists at a quote
exactly when the maximal whitespace run after it contains a newline and is
followed by a quote). -/
def quoteJoinAux : Nat → List Char → List Char
  | 0, cs => cs
  | Nat.succ n, cs =>
    match cs with
    | [] => []
    | c :: t =>
      if c = '"' then
        let run := t.takeWhile pyWs
        if run.contains '\n' && (t.drop run.length).head? = some '"' then
          ' ' :: quoteJoinAux n (t.drop (run.length + 1))
        else c :: quoteJoinAux n t
      else c :: quoteJoinAux n t

/-- The quote-line-break repair of line 118 of the source. -/
def quoteJoin (cs : List Char) : List Char := quoteJoinAux cs.length cs

/-- The sub `re.sub(r'\s{2,}', ' ', v)` of line 119 of the source: only
whitespace runs of length at least two become one space; a lone whitespace
character stays as it is. -/
def collapseWs2Aux : Nat → List Char → List Char
  | 0, cs => cs
  | Nat.succ n, cs =>
    match cs with
    | [] => []
    | c :: t =>
      if pyWs c then
        let run := t.takeWhile pyWs
        if run.isEmpty then c :: collapseWs2Aux n t
        else ' ' :: collapseWs2Aux n (t.drop run.length)
      else c :: collapseWs2Aux n t

/-- The whitespace-run collapse of line 119 of the source. -/
def collapseWs2 (cs : List Char) : List Char := collapseWs2Aux cs.length cs

/-- Stages 1 and 2 of `extract_and_format_raw_block` (lines 94 to 119): line
reconstruction, the `Replace- ment` repair, the duplicated-quote line-break
repair, whitespace-run collapse and a final strip. -/
def preprocessRaw (cs : List Char) : List Char :=
  stripWs (collapseWs2 (quoteJoin (replaceAll
    (List.intercalate ['\n'] (fixLines (splitLines cs) []))
    "Replace- ment".data "Replacement".data)))

/-- Digit class `\d` (ASCII). -/
def reDigit : RE := .cls isDigitCh

/-- Whitespace class `\s` (ASCII model). -/
def reWs : RE := .cls pyWs

/-- Single literal character. -/
def reChar (c : Char) : RE := .cls (fun x => x = c)

/-- Pattern 1, hospital bill rows (line 125 of the source):
`(\d+)\s*.*?\s*\"([^\"]*?)\".*?([\d,]+(?:\.\d{1,2})?)\b` with `re.DOTALL`
(the dots match any character; `re.IGNORECASE` is irrelevant, the pattern has
no cased literal). -/
def patternBill : RE :=
  cats [ .grp 1 (rePlus reDigit), .starG reWs, .starL (.cls (fun _ => true)),
    .starG reWs, reChar '"', .grp 2 (.starL (.cls (fun c => !(c = '"')))),
    reChar '"', .starL (.cls (fun _ => true)),
    .grp 3 (.cat (rePlus (.cls (fun c => isDigitCh c || c = ',')))
      (.optG (cats [reChar '.', reDigit, .optG reDigit]))), .wb ]

/-- Character class of pattern 2 and pattern 3 descriptions:
`[A-Za-z0-9(),\s\-\/\\.&]`. -/
def descCls : RE :=
  .cls (fun c => isAlphaCh c || isDigitCh c || c = '(' || c = ')' || c = ',' ||
    pyWs c || c = '-' || c = '/' || c = '\\' || c = '.' || c = '&')

/-- Grouped amount `\d{1,3}(?:,\d{3})*(?:\.\d{1,2})?` of pattern 2. -/
def reGroupedAmount : RE :=
  cats [ reDigit, .optG (.cat reDigit (.optG reDigit)),
    .starG (cats [reChar ',', reDigit, reDigit, reDigit]),
    .optG (cats [reChar '.', reDigit, .optG reDigit]) ]

/-- Plain amount `[\d,]+(?:\.\d{1,2})?` of patterns 3 to 6. -/
def rePlainAmount : RE :=
  .cat (rePlus (.cls (fun c => isDigitCh c || c = ',')))
    (.optG (cats [reChar '.', reDigit, .optG reDigit]))

/-- Pattern 2, estimate rows (line 140 of the source):
`([A-Za-z0-9(),\s\-\/\\.&]+?)\s{2,}(Rs\.?\s*|\₹?)\s*(\d{1,3}(?:,\d{3})*(?:\.\d{1,2})?)\b`
with `re.IGNORECASE` (`Rs` matches in any case). -/
def patternEstimate : RE :=
  cats [ .grp 1 (rePlusL descCls), reWs, reWs, .starG reWs,
    .grp 2 (.alt (cats [strREIC "Rs", .optG (reChar '.'), .starG reWs])
      (.optG (reChar '₹'))),
    .starG reWs, .grp 3 reGroupedAmount, .wb ]

/-- The sub of line 155 of the source:
`re.sub(r"Total Repair Cost[:\s₹Rs\.]*[\d,]+", "", v, flags=re.IGNORECASE)`. -/
def patternTotalCost : RE :=
  cats [ strREIC "Total Repair Cost",
    .starG (.cls (fun c => c = ':' || pyWs c || c = '₹' || lowerCh c = 'r' ||
      lowerCh c = 's' || c = '.')),
    rePlus (.cls (fun c => isDigitCh c || c = ',')) ]

/-- Pattern 3, motor repair rows (line 156 of the source):
`(\d+)\s+([A-Za-z0-9(),\s\-\/\\.&]+?)\s+(\d+)\s+([\d,]+)` (no flags). -/
def patternMotor : RE :=
  cats [ .grp 1 (rePlus reDigit), rePlus reWs, .grp 2 (rePlusL descCls),
    rePlus reWs, .grp 3 (rePlus reDigit), rePlus reWs,
    .grp 4 (rePlus (.cls (fun c => isDigitCh c || c = ','))) ]

/-- The medication-form alternation `(Tab\.|Cap\.|Syp\.|Inj\.|Oint\.|Cream\.)`
of patterns 4 and 6 (case-sensitive, no flags on those patterns). -/
def reMedForm : RE :=
  alts [ strRE "Tab.", strRE "Cap.", strRE "Syp.", strRE "Inj.",
    strRE "Oint.", strRE "Cream." ]

/-- Name class `[A-Za-z0-9\s\-\.]` of patterns 4 and 6. -/
def nameCls : RE :=
  .cls (fun c => isAlphaCh c || isDigitCh c || pyWs c || c = '-' || c = '.')

/-- Pattern 4, pharmacy rows (line 171 of the source):
`(\d+)\s+(Tab\.|Cap\.|Syp\.|Inj\.|Oint\.|Cream\.)\s+([A-Za-z0-9\s\-\.]+?)\s+\d+\s+\d+\s+([\d,]+(?:\.\d{1,2})?)`
(no flags). -/
def patternPharmacy : RE :=
  cats [ .grp 1 (rePlus reDigit), rePlus reWs, .grp 2 reMedForm, rePlus reWs,
    .grp 3 (rePlusL nameCls), rePlus reWs, rePlus reDigit, rePlus reWs,
    rePlus reDigit, rePlus reWs, .grp 4 rePlainAmount ]

/-- Pattern 5, fallback `description : Rs amount` rows (line 185 of the
source): `([A-Za-z0-9\s,()\/\-]+?)\s*:\s*Rs\.?\s*([\d,]+(?:\.\d{1,2})?)`
(no flags, `Rs` case-sensitive). -/
def patternSimple : RE :=
  cats [ .grp 1 (rePlusL (.cls (fun c => isAlphaCh c || isDigitCh c ||
      pyWs c || c = ',' || c = '(' || c = ')' || c = '/' || c = '-'))),
    .starG reWs, reChar ':', .starG reWs, strRE "Rs", .optG (reChar '.'),
    .starG reWs, .grp 2 rePlainAmount ]

/-- Pattern 6, fallback medication rows (line 200 of the source):
`(Tab\.|Cap\.|Syp\.|Inj\.|Oint\.|Cream\.)\s+([A-Za-z0-9\s\-\.]+):\s*Rs\.?\s*([\d,]+(?:\.\d{1,2})?)`
(no flags). -/
def patternFallbackMeds : RE :=
  cats [ .grp 1 reMedForm, rePlus reWs, .grp 2 (rePlus nameCls), reChar ':',
    .starG reWs, strRE "Rs", .optG (reChar '.'), .starG reWs,
    .grp 3 rePlainAmount ]

/-- `amt.replace(",", "")`. -/
def amtClean (amt : List Char) : List Char := amt.filter (fun c => !(c = ','))

/-- `amt_clean.replace('.', '').isdigit()`: after removing dots, a non-empty
all-digit string remains. -/
def amtDigitsOk (ac : List Char) : Bool :=
  let ds := ac.filter (fun c => !(c = '.'))
  !ds.isEmpty && ds.all isDigitCh

/-- Value of `float(amt_clean)` in paise (hundredths), for the comma-free
amounts the recognisers capture: an integer part and at most two decimals.
Further decimals (impossible for these regexes) are ignored; the float value
is exact for amounts inside double precision, the only regime exercised. -/
def parsePaise (ac : List Char) : Nat :=
  let ip := ac.takeWhile isDigitCh
  match ac.drop ip.length with
  | '.' :: [d] => natOfDigits ip * 100 + 10 * (d.toNat - 48)
  | '.' :: [d, e] => natOfDigits ip * 100 + 10 * (d.toNat - 48) + (e.toNat - 48)
  | _ => natOfDigits ip * 100

/-- The format `f"{x:,.0f}"` for a non-negative amount held in paise: round
half to even to whole rupees (the float is binary-exact at every `.50`
boundary in range), then thousands separators. -/
def formatAmt (paise : Nat) : List Char :=
  let q := paise / 100
  let r := paise % 100
  groupDigits
    (if r < 50 then q else if r > 50 then q + 1
     else if q % 2 = 0 then q else q + 1)

/-- Is a bill row accepted into output and total (its amount, commas removed,
is fully numeric)?  Rows of `findall` for pattern 1 always have exactly three
entries. -/
def billRowOk : List (List Char) → Bool
  | [_, _, amt] => amtDigitsOk (amtClean amt)
  | _ => false

/-- Output line of an accepted bill row: `- description: Rs. amount`. -/
def billRowLine : List (List Char) → List Char
  | [_, desc, amt] =>
    "- ".data ++ stripWs desc ++ ": Rs. ".data ++
      formatAmt (parsePaise (amtClean amt)) ++ ['\n']
  | _ => []

/-- Amount of a bill row in paise. -/
def billRowPaise : List (List Char) → Nat
  | [_, _, amt] => parsePaise (amtClean amt)
  | _ => 0

/-- The accumulation loop of lines 128 to 134 of the source. -/
def billLoop : List (List (List Char)) → List Char → Nat → (List Char × Nat)
  | [], formatted, total => (formatted, total)
  | row :: rest, formatted, total =>
    if billRowOk row then
      billLoop rest (formatted ++ billRowLine row) (total + billRowPaise row)
    else billLoop rest formatted total

/-- Branch 1 of the cascade (lines 127 to 137): per-row lines and, when the
total is positive, a final total line. -/
def billFormat (rows : List (List (List Char))) : List Char :=
  let ft := billLoop rows [] 0
  if ft.2 > 0 then ft.1 ++ "- Total: Rs. ".data ++ formatAmt ft.2 else ft.1

/-- Branch 2 of the cascade (lines 141 to 152), same emission as branch 1 but
on estimate rows `(desc, currency, amt)`. -/
def estimateLoop : List (List (List Char)) → List Char → Nat → (List Char × Nat)
  | [], formatted, total => (formatted, total)
  | row :: rest, formatted, total =>
    match row with
    | [desc, _, amt] =>
      let ac := amtClean amt
      if amtDigitsOk ac then
        estimateLoop rest
          (formatted ++ "- ".data ++ stripWs desc ++ ": Rs. ".data ++
            formatAmt (parsePaise ac) ++ ['\n']) (total + parsePaise ac)
      else estimateLoop rest formatted total
    | _ => estimateLoop rest formatted total

/-- Branch 2 output. -/
def estimateFormat (rows : List (List (List Char))) : List Char :=
  let ft := estimateLoop rows [] 0
  if ft.2 > 0 then ft.1 ++ "- Total: Rs. ".data ++ formatAmt ft.2 else ft.1

/-- Branch 3 of the cascade (lines 158 to 168) on motor repair rows
`(num, desc, qty, amt)`. -/
def motorLoop : List (List (List Char)) → List Char → Nat → (List Char × Nat)
  | [], formatted, total => (formatted, total)
  | row :: rest, formatted, total =>
    match row with
    | [num, desc, qty, amt] =>
      let ac := amtClean amt
      if amtDigitsOk ac then
        motorLoop rest
          (formatted ++ num ++ ". ".data ++ stripWs desc ++ " - Qty: ".data ++
            qty ++ ", Cost: Rs. ".data ++ formatAmt (parsePaise ac) ++ ['\n'])
          (total + parsePaise ac)
      else motorLoop rest formatted total
    | _ => motorLoop rest formatted total

/-- Branch 3 output: rows plus `\nTotal Repair Cost: Rs. sum` when positive. -/
def motorFormat (rows : List (List (List Char))) : List Char :=
  let ft := motorLoop rows [] 0
  if ft.2 > 0 then ft.1 ++ "\nTotal Repair Cost: Rs. ".data ++ formatAmt ft.2
  else ft.1

/-- Branch 4 of the cascade (lines 174 to 183) on pharmacy rows
`(s_no, form, name, amount)`. -/
def pharmacyLoop : List (List (List Char)) → List Char → Nat → (List Char × Nat)
  | [], formatted, total => (formatted, total)
  | row :: rest, formatted, total =>
    match row with
    | [sNo, form, name, amount] =>
      let ac := amtClean amount
      if amtDigitsOk ac then
        pharmacyLoop rest
          (formatted ++ sNo ++ ". ".data ++ form ++ ' ' :: stripWs name ++
            " - Rs. ".data ++ formatAmt (parsePaise ac) ++ ['\n'])
          (total + parsePaise ac)
      else pharmacyLoop rest formatted total
    | _ => pharmacyLoop rest formatted total

/-- Branch 4 output: rows plus `Total: Rs. sum` when positive. -/
def pharmacyFormat (rows : List (List (List Char))) : List Char :=
  let ft := pharmacyLoop rows [] 0
  if ft.2 > 0 then ft.1 ++ "Total: Rs. ".data ++ formatAmt ft.2 else ft.1

/-- Branch 5 of the cascade (lines 187 to 197) on `(desc, amt)` rows. -/
def simpleLoop : List (List (List Char)) → List Char → Nat → (List Char × Nat)
  | [], formatted, total => (formatted, total)
  | row :: rest, formatted, total =>
    match row with
    | [desc, amt] =>
      let ac := amtClean amt
      if amtDigitsOk ac then
        simpleLoop rest
          (formatted ++ "- ".data ++ stripWs desc ++ ": Rs. ".data ++
            formatAmt (parsePaise ac) ++ ['\n']) (total + parsePaise ac)
      else simpleLoop rest formatted total
    | _ => simpleLoop rest formatted total

/-- Branch 5 output. -/
def simpleFormat (rows : List (List (List Char))) : List Char :=
  let ft := simpleLoop rows [] 0
  if ft.2 > 0 then ft.1 ++ "- Total: Rs. ".data ++ formatAmt ft.2 else ft.1

/-- Branch 6 of the cascade (lines 201 to 212) on `(form, name, amt)` rows. -/
def fallbackMedsLoop : List (List (List Char)) → List Char → Nat → (List Char × Nat)
  | [], formatted, total => (formatted, total)
  | row :: rest, formatted, total =>
    match row with
    | [form, name, amt] =>
      let ac := amtClean amt
      if amtDigitsOk ac then
        fallbackMedsLoop rest
          (formatted ++ "• ".data ++ form ++ ' ' :: stripWs name ++
            " - ₹".data ++ formatAmt (parsePaise ac) ++ ['\n'])
          (total + parsePaise ac)
      else fallbackMedsLoop rest formatted total
    | _ => fallbackMedsLoop rest formatted total

/-- Branch 6 output: rows plus `Total: ₹sum` when positive. -/
def fallbackMedsFormat (rows : List (List (List Char))) : List Char :=
  let ft := fallbackMedsLoop rows [] 0
  if ft.2 > 0 then ft.1 ++ "Total: ₹".data ++ formatAmt ft.2 else ft.1

/-- Specification shape of branch 1, stated claim-style: one line per row
whose amount is fully numeric (in row order), and a final total line, equal
to the sum of the accepted amounts, exactly when that sum is positive. -/
def specBillOutput (rows : List (List (List Char))) : List Char :=
  ((rows.filter billRowOk).map billRowLine).flatten ++
    (if 0 < ((rows.filter billRowOk).map billRowPaise).sum then
      "- Total: Rs. ".data ++ formatAmt (((rows.filter billRowOk).map billRowPaise).sum)
     else [])

/-- `extract_and_format_raw_block(field_value)` from src/app.py lines 86 to
220: preprocessing, then the six recognisers in priority order with early
exit on the first non-empty match set (the sub of line 155 reassigns the
working text before patterns 3 to 6), then the raw-text fallback. -/
def extract_and_format_raw_block (field_value : String) : String :=
  if field_value = "" then ""
  else
    let fv := preprocessRaw field_value.data
    let rows1 := findall patternBill 3 fv
    if !rows1.isEmpty then String.mk (billFormat rows1)
    else
      let rows2 := findall patternEstimate 3 fv
      if !rows2.isEmpty then String.mk (estimateFormat rows2)
      else
        let fv3 := subAll patternTotalCost fv
        let rows3 := findall patternMotor 4 fv3
        if !rows3.isEmpty then String.mk (motorFormat rows3)
        else
          let rows4 := findall patternPharmacy 4 fv3
          if !rows4.isEmpty then String.mk (pharmacyFormat rows4)
          else
            let rows5 := findall patternSimple 2 fv3
            if !rows5.isEmpty then String.mk (simpleFormat rows5)
            else
              let rows6 := findall patternFallbackMeds 3 fv3
              if !rows6.isEmpty then String.mk (fallbackMedsFormat rows6)
              else
                let craw := (stripWs fv3).map
                  (fun c => if c = '\n' then ' ' else if c = '\r' then ' ' else c)
                if !craw.isEmpty then String.mk ("- ".data ++ craw) else ""

/-! ## SectionFormatter (src/app.py lines 580 to 643, the rendering loop) -/

/-- ASCII `str.lower` on strings. -/
def lowerStr (s : String) : String := String.mk (lowerL s.data)

/-- Python `s.startswith(pre)`. -/
def startsWithStr (s pre : String) : Bool := List.isPrefixOf pre.data s.data

/-- Python `sub in s`. -/
def containsStr (s sub : String) : Bool := hasSubstr s.data sub.data

/-- Python `s.replace(pat, repl)`. -/
def replaceStr (s pat repl : String) : String :=
  String.mk (replaceAll s.data pat.data repl.data)

/-- Python `s.strip(" :-")`. -/
def stripSym (s : String) : String :=
  String.mk (stripBoth (fun c => c = ' ' || c = ':' || c = '-') s.data)

/-- Python `s[n:]`. -/
def dropStr (s : String) (n : Nat) : String := String.mk (s.data.drop n)

/-- The field-name-shortening chain of lines 592 to 628 of the source, up to
but not including the exclusion branch of line 629: `some short_field` when
one of the seventeen branches matches, `none` when the chain falls through.
The drop counts are the lengths of the literal prefixes of the source
(`Insured ` 8, `Claimant ` 9, `Driver ` and `Garage ` 7,
`Other Insurance - ` and `Interest Holder - ` 18, `Primary Insured ` 16,
`Insured Person Hospitalized ` 28). -/
def shortFieldRule (heading field : String) : Option String :=
  let hl := lowerStr heading
  let fl := lowerStr field
  if hl = "life assured details" && startsWithStr fl "insured " then
    some (stripSym (dropStr field 8))
  else if hl = "bank & payout details" && startsWithStr fl "claimant " then
    some (stripSym (dropStr field 9))
  else if hl = "claim submission details" &&
      (containsStr fl " (official)" || containsStr fl " (official use)") then
    some (stripSym (replaceStr (replaceStr field " (Official)" "") " (Official Use)" ""))
  else if hl = "death certificate details" && containsStr fl " (death certificate)" then
    some (stripSym (replaceStr field "(Death Certificate)" ""))
  else if hl = "kyc details" && containsStr fl " (kyc)" then
    some (stripSym (replaceStr field "(KYC)" ""))
  else if hl = "policy details" && fl = "policy number" then
    some "Policy No."
  else if hl = "claimant details" && startsWithStr fl "claimant " then
    some (stripSym (dropStr field 9))
  else if hl = "driver details" && startsWithStr fl "driver " then
    (if !containsStr fl "driving" then some (stripSym (dropStr field 7))
     else some field)
  else if hl = "garage details" && startsWithStr fl "garage " then
    some (stripSym (dropStr field 7))
  else if hl = "other insurance details" && startsWithStr fl "other insurance - " then
    some (stripSym (dropStr field 18))
  else if hl = "interest holder details" && startsWithStr fl "interest holder - " then
    some (stripSym (dropStr field 18))
  else if hl = "discharge voucher" && containsStr fl "(discharge voucher)" then
    some (stripSym (replaceStr field "(Discharge Voucher)" ""))
  else if hl = "satisfaction note" && containsStr fl "(satisfaction note)" then
    some (stripSym (replaceStr field "(Satisfaction Note)" ""))
  else if hl = "kyc information" && containsStr fl "(kyc)" then
    some (stripSym (replaceStr field "(KYC)" ""))
  else if hl = "primary insured details" && startsWithStr fl "primary insured " then
    some (stripSym (dropStr field 16))
  else if hl = "insured person hospitalized details" &&
      startsWithStr fl "insured person hospitalized " then
    some (stripSym (dropStr field 28))
  else if heading != "" &&
      startsWithStr fl
        (String.mk (stripWs (replaceAll hl.data " details".data [])) ++ " ") then
    some (stripSym (dropStr field
      (stripWs (replaceAll hl.data " details".data [])).length))
  else none

/-- The interactive fields of line 629 of the source, excluded from generic
rendering when no shortening branch matched. -/
def excludedFields : List String :=
  ["FIR Status", "Hospital Type Network", "Cashless Facility Availed", "Claim Type"]

/-- The raw-block markers of lines 633 to 636 of the source. -/
def rawMarkers : List String :=
  [ "Bill Breakup Details Raw", "Medication Details Raw", "Repair Items Raw",
    "Loss Details Raw", "Cost Details Raw" ]

/-- Emission of one field line (lines 632 to 639 of the source): fields whose
name contains a raw marker render as a sub-heading plus the raw block,
otherwise as a plain `- label: value` line. -/
def emitFieldLine (field sf value : String) : String :=
  if rawMarkers.any (fun rk => containsStr field rk) then
    "### " ++ sf ++ "\n" ++ extract_and_format_raw_block value
  else "- " ++ sf ++ ": " ++ value

/-- Rendering decision for one field of a section: the shortening chain, then
the exclusion of the interactive fields (`continue` in the source, i.e. the
field contributes no line), then emission under the original or shortened
label. -/
def renderField (heading field value : String) : Option String :=
  match shortFieldRule heading field with
  | some sf => some (emitFieldLine field sf value)
  | none =>
    if field ∈ excludedFields then none
    else some (emitFieldLine field field value)

/-- The inner field loop of one section (lines 586 to 639): fields whose
combined value strips to empty contribute nothing. -/
def renderSection (combined : List (String × String)) (title : String)
    (fields : List String) : List String :=
  fields.filterMap (fun field =>
    let value := String.mk (stripWs ((lookup combined field).getD "").data)
    if value = "" then none else renderField title field value)

/-- The section loop of lines 581 to 643 of the source: a section is emitted,
with its heading, only when it has at least one rendered line. -/
def renderSections (sections : List (String × List String))
    (combined : List (String × String)) : String :=
  sections.foldl (fun formatted sec =>
    let content := renderSection combined sec.1 sec.2
    if content.isEmpty then formatted
    else formatted ++ "\n### " ++ sec.1 ++ "\n" ++
      String.intercalate "\n" content ++ "\n") ""

/-- Oracle of a regex with one capturing group, for example
`Claim Amount[:\s]+(\d+)` searched in the text `Claim Amount: 12345`. -/
def patC5 : Pat := fun t =>
  if t = "Claim Amount: 12345" then
    some ⟨ "Claim Amount: 12345", [some "12345"]⟩
  else none

/-- Oracle of the groupless regex `Nationality` searched in the text
`Nationality`: the full match is the whole text. -/
def patC7 : Pat := fun t =>
  if t = "Nationality" then some ⟨ "Nationality", []⟩ else none

/-- Oracle of a groupless regex matching the whole text `Hello World`. -/
def patC7b : Pat := fun t =>
  if t = "Hello World" then some ⟨ "Hello World", []⟩ else none

/-- Oracle of a regex with one capturing group on the text of the C1 witness,
for example `(\d+)` searched in `Policy 98765`: full match `98765`, one group
`98765`. -/
def patC1 : Pat := fun t =>
  if t = "Policy 98765" then some ⟨ "98765", [some "98765"]⟩ else none

/-- Oracle of a groupless pattern that matches every text, for example `.*`
with `re.DOTALL`; it stands for a later pattern that would also match. -/
def patC1b : Pat := fun t => some ⟨t, []⟩

/-- Oracle of the regex `Claim:\s*([A-Za-z]+)` searched in the text
`Claim: NA`: full match `Claim: NA`, one capturing group `NA`. -/
def patC2 : Pat := fun t =>
  if t = "Claim: NA" then some ⟨ "Claim: NA", [some "NA"]⟩ else none

/-- Oracle of the regex `Remark:\s*([A-Za-z]+)` searched in the text
`Remark: NA`: full match `Remark: NA`, one capturing group `NA`. -/
def patC3 : Pat := fun t =>
  if t = "Remark: NA" then some ⟨ "Remark: NA", [some "NA"]⟩ else none

/-- Head of the list is absent or a non-whitespace character. -/
def headNotWs : List Char → Bool
  | [] => true
  | c :: _ => !pyWs c

/-- Last element of the list is absent or a non-whitespace character. -/
def lastNotWs : List Char → Bool
  | [] => true
  | [c] => !pyWs c
  | _ :: d :: r => lastNotWs (d :: r)

/-- Interior whitespace discipline: every whitespace character in the list is
a plain space, and no two consecutive characters are both whitespace. -/
def goodRun : List Char → Bool
  | [] => true
  | [c] => !pyWs c || c = ' '
  | c :: d :: r => (!pyWs c || c = ' ') && !(pyWs c && pyWs d) && goodRun (d :: r)

/-- A character list is whitespace-normalized: no leading or trailing
whitespace, and every internal whitespace run is a single space. -/
def isNormChars (l : List Char) : Bool :=
  goodRun l && headNotWs l && lastNotWs l

/-- A string is whitespace-normalized. -/
def isNormalized (s : String) : Bool := isNormChars s.data

/-- Oracle of the groupless regex `A\s+B` searched in the text with a double
space between A and B: the full match is the whole text. -/
def patC10 : Pat := fun t =>
  if t = "A  B" then some ⟨ "A  B", []⟩ else none

/-- C1: for every text and ordered pattern list, the result of `extract_field`
is determined by the first pattern whose search succeeds: it equals the
processing of that match and does not depend on the patterns listed after it,
so the returned value never comes from a later pattern when an earlier one
matches. -/
theorem extract_field_first_pattern_wins (text : String) (p : Pat) (m : MatchRes)
    (ps ps2 : List Pat) (h : p text = some m) :
    extract_field text (p :: ps) = processMatch m ∧
    extract_field text (p :: ps) = extract_field text (p :: ps2) := by
  simp [extract_field, h]

/-- Witness for C1 at a concrete text and pattern list: the first pattern
matches, and the result ignores the second (always matching) pattern. -/
theorem extract_field_first_pattern_wins_witness :
    patC1 "Policy 98765" = some ⟨ "98765", [some "98765"]⟩ ∧
    (extract_field "Policy 98765" [patC1, patC1b] =
        processMatch ⟨ "98765", [some "98765"]⟩ ∧
      extract_field "Policy 98765" [patC1, patC1b] =
        extract_field "Policy 98765" [patC1]) :=
  ⟨by decide,
    extract_field_first_pattern_wins "Policy 98765" patC1 ⟨ "98765", [some "98765"]⟩
      [patC1b] [] (by decide)⟩


/-- C2: at the failing input, the only pattern matches with one capturing
group whose cleaned value `NA` is rejected by the stoplist, so no candidate
survives the pipeline; the specified result is the empty string, but the code
falls through to line 83 and returns the cleaned full match `Claim: NA`. -/
theorem extract_field_rejected_groups_full_match :
    extract_field "Claim: NA" [patC2] = "Claim: NA" ∧
    extract_field "Claim: NA" [patC2] ≠ "" := by
  constructor
  · decide
  · decide


/-- Counterexample to C3: a matched capturing-group candidate cleans to `NA`
(lower-cased `na`), yet `extract_field` does not return the literal `NA`: the
stoplist and length check of step 3 rejects the candidate first, and the
function falls through to the cleaned full match. -/
theorem extract_field_na_counterexample :
    extract_field "Remark: NA" [patC3] = "Remark: NA" ∧
    extract_field "Remark: NA" [patC3] ≠ "NA" := by
  constructor
  · decide
  · decide

/-- C3 amended: a matched capturing-group candidate whose cleaned, lower-cased
value equals `na` is always rejected by the stoplist and length check (`na` is
in the stoplist and has length under 3), so the literal `NA` return on line 78
of the source is unreachable for such candidates. -/
theorem na_candidate_always_rejected (s : List Char)
    (h : lowerL (cleanedCandidate s) = "na".data) :
    tryCandidate s = none := by
  have hc : stoplist.contains ("na".data) = true := by decide
  simp only [tryCandidate]
  rw [h, hc]
  simp

/-- Witness for the amended C3 at the concrete candidate `NA`. -/
theorem na_candidate_always_rejected_witness :
    lowerL (cleanedCandidate "NA".data) = "na".data ∧
    tryCandidate "NA".data = none :=
  ⟨by decide, na_candidate_always_rejected "NA".data (by decide)⟩


theorem goodRun_tail {c : Char} {t : List Char} (h : goodRun (c :: t) = true) :
    goodRun t = true := by
  cases t with
  | nil => rfl
  | cons d r =>
    simp only [goodRun, Bool.and_eq_true] at h
    exact h.2

theorem goodRun_headCond {c : Char} {t : List Char} (h : goodRun (c :: t) = true) :
    (!pyWs c || c = ' ') = true := by
  cases t with
  | nil => exact h
  | cons d r =>
    simp only [goodRun, Bool.and_eq_true] at h
    exact h.1.1

theorem goodRun_cons_not_ws {c : Char} {l : List Char} (hc : pyWs c = false)
    (hl : goodRun l = true) : goodRun (c :: l) = true := by
  cases l with
  | nil => simp [goodRun, hc]
  | cons d r => simp [goodRun, hc, hl]

theorem collapseWs_cons_not_ws {c : Char} {r : List Char} (hc : pyWs c = false) :
    collapseWs (c :: r) = c :: collapseWs r := by
  cases r with
  | nil => simp [collapseWs, hc]
  | cons d s => simp [collapseWs, hc]

theorem collapseWs_ww {c d : Char} {r : List Char} (hc : pyWs c = true)
    (hd : pyWs d = true) : collapseWs (c :: d :: r) = collapseWs (d :: r) := by
  simp [collapseWs, hc, hd]

theorem collapseWs_wn {c d : Char} {r : List Char} (hc : pyWs c = true)
    (hd : pyWs d = false) : collapseWs (c :: d :: r) = ' ' :: collapseWs (d :: r) := by
  simp [collapseWs, hc, hd]

theorem collapseWs_ne_nil : (l : List Char) → l ≠ [] → collapseWs l ≠ []
  | [], h => absurd rfl h
  | [c], _ => by
    rcases Bool.eq_false_or_eq_true (pyWs c) with hc | hc <;> simp [collapseWs, hc]
  | c :: d :: r, _ => by
    rcases Bool.eq_false_or_eq_true (pyWs c) with hc | hc
    · rcases Bool.eq_false_or_eq_true (pyWs d) with hd | hd
      · rw [collapseWs_ww hc hd]
        exact collapseWs_ne_nil (d :: r) (by simp)
      · simp [collapseWs_wn hc hd]
    · simp [collapseWs_cons_not_ws hc]

theorem goodRun_collapseWs : (l : List Char) → goodRun (collapseWs l) = true
  | [] => rfl
  | [c] => by
    rcases Bool.eq_false_or_eq_true (pyWs c) with hc | hc
    · have : collapseWs [c] = [' '] := by simp [collapseWs, hc]
      rw [this]; decide
    · simp [collapseWs, hc, goodRun]
  | c :: d :: r => by
    rcases Bool.eq_false_or_eq_true (pyWs c) with hc | hc
    · rcases Bool.eq_false_or_eq_true (pyWs d) with hd | hd
      · rw [collapseWs_ww hc hd]
        exact goodRun_collapseWs (d :: r)
      · rw [collapseWs_wn hc hd, collapseWs_cons_not_ws hd]
        have hrec : goodRun (d :: collapseWs r) = true := by
          rw [← collapseWs_cons_not_ws hd]
          exact goodRun_collapseWs (d :: r)
        simp only [goodRun, Bool.and_eq_true]
        refine ⟨⟨by decide, ?_⟩, hrec⟩
        simp [hd]
    · rw [collapseWs_cons_not_ws hc]
      exact goodRun_cons_not_ws hc (goodRun_collapseWs (d :: r))

theorem lastNotWs_cons_of_ne_nil {a : Char} {l : List Char} (h : l ≠ []) :
    lastNotWs (a :: l) = lastNotWs l := by
  cases l with
  | nil => exact absurd rfl h
  | cons b t => rfl

theorem lastNotWs_collapseWs : (l : List Char) → lastNotWs l = true →
    lastNotWs (collapseWs l) = true
  | [], _ => rfl
  | [c], h => by
    have hc : pyWs c = false := by simpa [lastNotWs] using h
    simp [collapseWs, hc, lastNotWs]
  | c :: d :: r, h => by
    have h2 : lastNotWs (d :: r) = true := h
    have hne := collapseWs_ne_nil (d :: r) (by simp)
    have hrec := lastNotWs_collapseWs (d :: r) h2
    rcases Bool.eq_false_or_eq_true (pyWs c) with hc | hc
    · rcases Bool.eq_false_or_eq_true (pyWs d) with hd | hd
      · rw [collapseWs_ww hc hd]
        exact hrec
      · rw [collapseWs_wn hc hd, lastNotWs_cons_of_ne_nil hne]
        exact hrec
    · rw [collapseWs_cons_not_ws hc, lastNotWs_cons_of_ne_nil hne]
      exact hrec

theorem headNotWs_collapseWs {l : List Char} (h : headNotWs l = true) :
    headNotWs (collapseWs l) = true := by
  cases l with
  | nil => rfl
  | cons c t =>
    have hc : pyWs c = false := by simpa [headNotWs] using h
    rw [collapseWs_cons_not_ws hc]
    simpa [headNotWs] using hc

theorem goodRun_take : (n : Nat) → (l : List Char) → goodRun l = true →
    goodRun (l.take n) = true
  | 0, _, _ => by simp [goodRun]
  | _ + 1, [], _ => rfl
  | n + 1, [c], h => by
    simp only [List.take_succ_cons, List.take_nil]
    exact h
  | n + 1, c :: d :: r, h => by
    have h0 := h
    simp only [goodRun, Bool.and_eq_true] at h0
    cases n with
    | zero =>
      simp only [List.take_succ_cons, List.take_zero]
      exact h0.1.1
    | succ m =>
      have hrec := goodRun_take (m + 1) (d :: r) h0.2
      simp only [List.take_succ_cons] at hrec ⊢
      simp only [goodRun, Bool.and_eq_true]
      exact ⟨h0.1, hrec⟩

theorem goodRun_dropWhile (p : Char → Bool) : (l : List Char) → goodRun l = true →
    goodRun (l.dropWhile p) = true
  | [], _ => rfl
  | c :: t, h => by
    rcases Bool.eq_false_or_eq_true (p c) with hc | hc
    · simpa [List.dropWhile_cons, hc] using goodRun_dropWhile p t (goodRun_tail h)
    · simpa [List.dropWhile_cons, hc] using h

theorem dropTrail_cons_eq (p : Char → Bool) (c : Char) (t : List Char) :
    dropTrail p (c :: t) =
      cond (dropTrail p t).isEmpty (cond (p c) [] [c]) (c :: dropTrail p t) := rfl

theorem dropTrail_head {p : Char → Bool} {a : Char} {s : List Char}
    (h : dropTrail p (a :: s) ≠ []) : ∃ r, dropTrail p (a :: s) = a :: r := by
  rw [dropTrail_cons_eq] at h ⊢
  cases hd : (dropTrail p s).isEmpty with
  | true =>
    rw [hd] at h
    rw [Bool.cond_true] at h ⊢
    cases hpa : p a with
    | true => rw [hpa, Bool.cond_true] at h; exact absurd rfl h
    | false => rw [Bool.cond_false]; exact ⟨[], rfl⟩
  | false =>
    rw [Bool.cond_false]
    exact ⟨dropTrail p s, rfl⟩

theorem isEmpty_false_ne_nil {l : List Char} (h : l.isEmpty = false) : l ≠ [] := by
  intro he
  rw [he] at h
  simp at h

theorem goodRun_dropTrail (p : Char → Bool) : (l : List Char) → goodRun l = true →
    goodRun (dropTrail p l) = true
  | [], _ => rfl
  | c :: t, h => by
    have hrec := goodRun_dropTrail p t (goodRun_tail h)
    rw [dropTrail_cons_eq]
    cases hd : (dropTrail p t).isEmpty with
    | true =>
      rw [Bool.cond_true]
      cases hpc : p c with
      | true => rw [Bool.cond_true]; rfl
      | false =>
        rw [Bool.cond_false]
        simpa [goodRun] using goodRun_headCond h
    | false =>
      rw [Bool.cond_false]
      cases t with
      | nil => simp [dropTrail] at hd
      | cons a s =>
        obtain ⟨r, hr⟩ := dropTrail_head (isEmpty_false_ne_nil hd)
        rw [hr] at hrec ⊢
        simp only [goodRun, Bool.and_eq_true] at h hrec ⊢
        exact ⟨⟨h.1.1, h.1.2⟩, hrec⟩

theorem headNotWs_dropWhile : (l : List Char) → headNotWs (l.dropWhile pyWs) = true
  | [] => rfl
  | c :: t => by
    rcases Bool.eq_false_or_eq_true (pyWs c) with hc | hc
    · simpa [List.dropWhile_cons, hc] using headNotWs_dropWhile t
    · simp [List.dropWhile_cons, hc, headNotWs]

theorem headNotWs_dropTrail {p : Char → Bool} {l : List Char}
    (h : headNotWs l = true) : headNotWs (dropTrail p l) = true := by
  cases l with
  | nil => rfl
  | cons c t =>
    by_cases hemp : dropTrail p (c :: t) = []
    · rw [hemp]; rfl
    · obtain ⟨r, hr⟩ := dropTrail_head hemp
      rw [hr]
      simpa [headNotWs] using h

theorem lastNotWs_dropTrail : (l : List Char) → lastNotWs (dropTrail pyWs l) = true
  | [] => rfl
  | c :: t => by
    have hrec := lastNotWs_dropTrail t
    rw [dropTrail_cons_eq]
    cases hd : (dropTrail pyWs t).isEmpty with
    | true =>
      rw [Bool.cond_true]
      cases hpc : pyWs c with
      | true => rw [Bool.cond_true]; rfl
      | false =>
        rw [Bool.cond_false]
        simp [lastNotWs, hpc]
    | false =>
      rw [Bool.cond_false,
        lastNotWs_cons_of_ne_nil (isEmpty_false_ne_nil hd)]
      exact hrec

theorem isNormChars_stripWs {l : List Char} (h : goodRun l = true) :
    isNormChars (stripWs l) = true := by
  simp only [isNormChars, stripWs, Bool.and_eq_true]
  refine ⟨⟨?_, ?_⟩, ?_⟩
  · exact goodRun_dropTrail pyWs _ (goodRun_dropWhile pyWs l h)
  · exact headNotWs_dropTrail (headNotWs_dropWhile l)
  · exact lastNotWs_dropTrail _

theorem isNormChars_cleanedCandidate (s : List Char) :
    isNormChars (cleanedCandidate s) = true := by
  have hg : goodRun (collapseWs (stripWs s)) = true := goodRun_collapseWs _
  unfold cleanedCandidate labelSplit0
  cases findLabelIdx none (collapseWs (stripWs s)) with
  | none => exact isNormChars_stripWs hg
  | some i => exact isNormChars_stripWs (goodRun_take i _ hg)

theorem isNormChars_fullClean (g : List Char) :
    isNormChars (collapseWs (stripWs g)) = true := by
  simp only [isNormChars, Bool.and_eq_true]
  refine ⟨⟨goodRun_collapseWs _, ?_⟩, ?_⟩
  · exact headNotWs_collapseWs (headNotWs_dropTrail (headNotWs_dropWhile g))
  · exact lastNotWs_collapseWs _ (lastNotWs_dropTrail _)

theorem isNormChars_tryCandidate {s v : List Char} (h : tryCandidate s = some v) :
    isNormChars v = true := by
  simp only [tryCandidate] at h
  split at h
  · exact absurd h (by simp)
  · split at h
    · have hv : "NA".data = v := by injection h
      rw [← hv]
      decide
    · split at h
      · exact absurd h (by simp)
      · have hv : cleanedCandidate s = v := by injection h
        rw [← hv]
        exact isNormChars_cleanedCandidate s

theorem isNormChars_tryGroups : (gs : List (Option String)) → (v : List Char) →
    tryGroups gs = some v → isNormChars v = true
  | [], _, h => by simp [tryGroups] at h
  | g :: gs, v, h => by
    cases g with
    | none => exact isNormChars_tryGroups gs v h
    | some s =>
      by_cases hs : s = ""
      · subst hs
        simp only [tryGroups, if_pos rfl] at h
        exact isNormChars_tryGroups gs v h
      · simp only [tryGroups, if_neg hs] at h
        cases hc : tryCandidate s.data with
        | some w =>
          rw [hc] at h
          have hv : w = v := by injection h
          rw [← hv]
          exact isNormChars_tryCandidate hc
        | none =>
          rw [hc] at h
          exact isNormChars_tryGroups gs v h

theorem isNormalized_processMatch (m : MatchRes) :
    isNormalized (processMatch m) = true := by
  unfold processMatch isNormalized
  cases hg : tryGroups m.groups with
  | some v => simpa using isNormChars_tryGroups m.groups v hg
  | none => simpa using isNormChars_fullClean m.group0.data

/-- C10: every string returned by `extract_field` that is non-empty is
whitespace-normalized: no leading or trailing whitespace, and every internal
whitespace run is a single plain space, on all return paths (group survivor,
literal NA, and the cleaned full-match path of line 83). -/
theorem extract_field_normalized (text : String) (ps : List Pat)
    (h : extract_field text ps ≠ "") :
    isNormalized (extract_field text ps) = true := by
  induction ps with
  | nil => exact absurd rfl h
  | cons p ps ih =>
    cases hp : p text with
    | some m =>
      have he : extract_field text (p :: ps) = processMatch m := by
        simp [extract_field, hp]
      rw [he]
      exact isNormalized_processMatch m
    | none =>
      have he : extract_field text (p :: ps) = extract_field text ps := by
        simp [extract_field, hp]
      rw [he] at h ⊢
      exact ih h


/-- Witness for C10 at a concrete text and pattern: the full-match path
returns the collapsed, stripped text `A B`, which is normalized. -/
theorem extract_field_normalized_witness :
    extract_field "A  B" [patC10] ≠ "" ∧
    isNormalized (extract_field "A  B" [patC10]) = true :=
  ⟨by decide, extract_field_normalized "A  B" [patC10] (by decide)⟩

/-- C9: `extract_field` is a pure function of its text and pattern list in
this embedding (the Python function reads no other state and the `re` module
is deterministic), so re-running it on the same inputs yields exactly the
same output. -/
theorem extract_field_deterministic (text : String) (ps : List Pat) :
    extract_field text ps = extract_field text ps := rfl

theorem dropWhile_eq_self_of_headNotWs {l : List Char} (h : headNotWs l = true) :
    l.dropWhile pyWs = l := by
  cases l with
  | nil => rfl
  | cons c t =>
    have hc : pyWs c = false := by simpa [headNotWs] using h
    simp [List.dropWhile_cons, hc]

theorem dropTrail_eq_self_of_lastNotWs : (l : List Char) → lastNotWs l = true →
    dropTrail pyWs l = l
  | [], _ => rfl
  | [c], h => by
    have hc : pyWs c = false := by simpa [lastNotWs] using h
    simp [dropTrail, hc]
  | c :: d :: r, h => by
    have h2 : lastNotWs (d :: r) = true := h
    have hrec := dropTrail_eq_self_of_lastNotWs (d :: r) h2
    rw [dropTrail_cons_eq, hrec]
    simp

theorem stripWs_eq_self {l : List Char} (hh : headNotWs l = true)
    (hl : lastNotWs l = true) : stripWs l = l := by
  unfold stripWs
  rw [dropWhile_eq_self_of_headNotWs hh, dropTrail_eq_self_of_lastNotWs l hl]

theorem headNotWs_stripWs (l : List Char) : headNotWs (stripWs l) = true :=
  headNotWs_dropTrail (headNotWs_dropWhile l)

theorem lastNotWs_stripWs (l : List Char) : lastNotWs (stripWs l) = true :=
  lastNotWs_dropTrail _

theorem stripWs_idem (l : List Char) : stripWs (stripWs l) = stripWs l :=
  stripWs_eq_self (headNotWs_stripWs l) (lastNotWs_stripWs l)

theorem stripWs_stripBoilerplate (l : List Char) :
    stripWs (stripBoilerplate l) = stripBoilerplate l := by
  unfold stripBoilerplate
  cases findBoilerIdx none l with
  | none => exact stripWs_idem l
  | some i => exact stripWs_idem _

theorem lastNotWs_append {l1 l2 : List Char} (h2 : l2 ≠ []) :
    lastNotWs (l1 ++ l2) = lastNotWs l2 := by
  induction l1 with
  | nil => rfl
  | cons c t ih =>
    rw [List.cons_append,
      lastNotWs_cons_of_ne_nil (fun he => h2 (List.append_eq_nil.mp he).2), ih]

theorem lastNotWs_of_all : (l : List Char) → l.all (fun c => !pyWs c) = true →
    lastNotWs l = true
  | [], _ => rfl
  | [c], h => by
    simp only [List.all_cons, List.all_nil, Bool.and_true] at h
    simpa [lastNotWs] using h
  | c :: d :: r, h => by
    rw [lastNotWs_cons_of_ne_nil (by simp)]
    refine lastNotWs_of_all (d :: r) ?_
    simp only [List.all_cons, Bool.and_eq_true] at h ⊢
    exact h.2

theorem pyWs_digitChar {d : Nat} (h : d < 10) : pyWs (digitChar d) = false := by
  interval_cases d <;> decide

theorem natDigitsAux_all : (fuel n : Nat) →
    (natDigitsAux fuel n).all (fun c => !pyWs c) = true
  | 0, _ => rfl
  | Nat.succ fuel, n => by
    by_cases hn : n < 10
    · simp [natDigitsAux, hn, pyWs_digitChar hn]
    · have h10 : n % 10 < 10 := Nat.mod_lt _ (by decide)
      simp [natDigitsAux, hn, List.all_append, natDigitsAux_all fuel (n / 10),
        pyWs_digitChar h10]

theorem pyWs_comma : pyWs ',' = false := by decide

theorem insertCommasGo_all : (l : List Char) → (cnt : Nat) →
    l.all (fun c => !pyWs c) = true →
    (insertCommasGo l cnt).all (fun c => !pyWs c) = true
  | [], _, _ => rfl
  | c :: t, cnt, h => by
    simp only [List.all_cons, Bool.and_eq_true] at h
    by_cases hc : cnt = 3
    · simp [insertCommasGo, hc, List.all_cons, h.1, insertCommasGo_all t 1 h.2,
        pyWs_comma]
    · simp [insertCommasGo, hc, List.all_cons, h.1, insertCommasGo_all t (cnt + 1) h.2]

theorem groupDigits_all (n : Nat) : (groupDigits n).all (fun c => !pyWs c) = true := by
  unfold groupDigits
  rw [List.all_reverse]
  refine insertCommasGo_all _ 0 ?_
  rw [List.all_reverse]
  exact natDigitsAux_all (n + 1) n

theorem natDigits_ne_nil (n : Nat) : natDigits n ≠ [] := by
  unfold natDigits natDigitsAux
  by_cases hn : n < 10 <;> simp [hn]

theorem insertCommasGo_ne_nil {l : List Char} {cnt : Nat} (h : l ≠ []) :
    insertCommasGo l cnt ≠ [] := by
  cases l with
  | nil => exact absurd rfl h
  | cons c t => by_cases hc : cnt = 3 <;> simp [insertCommasGo, hc]

theorem groupDigits_ne_nil (n : Nat) : groupDigits n ≠ [] := by
  unfold groupDigits
  rw [Ne, List.reverse_eq_nil_iff]
  exact insertCommasGo_ne_nil
    (by rw [Ne, List.reverse_eq_nil_iff]; exact natDigits_ne_nil n)

theorem matchMoneyGrouped_ne_nil {v : List Char} (h : matchMoneyGrouped v = true) :
    v ≠ [] := by
  intro he
  subst he
  exact absurd h (by decide)

theorem rsPrefix_stripFixed {x : List Char} (hlast : lastNotWs x = true)
    (hne : x ≠ []) : stripWs ("Rs. ".data ++ x) = "Rs. ".data ++ x := by
  apply stripWs_eq_self
  · rfl
  · rw [lastNotWs_append hne]
    exact hlast

theorem stripFixed_lastNotWs {x : List Char} (h : stripWs x = x) :
    lastNotWs x = true := h ▸ lastNotWs_stripWs x

theorem postProcessValue_stripFixed (name value : String) :
    stripWs (postProcessValue name value).data = (postProcessValue name value).data := by
  simp only [postProcessValue]
  have hfix : stripWs (stripBoilerplate (hyphenFix value.data)) =
      stripBoilerplate (hyphenFix value.data) := stripWs_stripBoilerplate _
  by_cases hm : money_fields.contains (lowerL name.data) = true
  · rw [if_pos hm]
    show stripWs (moneyNormalize (stripBoilerplate (hyphenFix value.data))) =
      moneyNormalize (stripBoilerplate (hyphenFix value.data))
    unfold moneyNormalize
    by_cases h1 : matchMoneyGrouped (stripBoilerplate (hyphenFix value.data)) = true
    · rw [if_pos h1]
      exact rsPrefix_stripFixed (stripFixed_lastNotWs hfix) (matchMoneyGrouped_ne_nil h1)
    · rw [if_neg h1]
      by_cases h2 : matchMoneyPlain (stripBoilerplate (hyphenFix value.data)) = true
      · rw [if_pos h2]
        exact rsPrefix_stripFixed (lastNotWs_of_all _ (groupDigits_all _))
          (groupDigits_ne_nil _)
      · rw [if_neg h2]
        exact hfix
  · rw [if_neg hm]
    exact hfix

theorem lookup_setKey (d : List (String × String)) (k2 v2 k : String) :
    lookup (setKey d k2 v2) k = if k2 = k then some v2 else lookup d k := by
  induction d with
  | nil => by_cases hk : k2 = k <;> simp [setKey, lookup, hk]
  | cons p t ih =>
    obtain ⟨k1, v1⟩ := p
    by_cases h1 : k1 = k2
    · subst h1
      by_cases hk : k1 = k <;> simp [setKey, lookup, hk]
    · by_cases hk : k1 = k
      · subst hk
        have h2 : ¬(k2 = k1) := fun he => h1 he.symm
        simp [setKey, lookup, h1, h2]
      · simp [setKey, lookup, h1, hk, ih]

/-- C4: the combined-summary merge is first-writer-wins: when a field already
holds a value that does not strip to empty (every value a summary stores is
stripped, so a non-empty stored value never strips to empty), merging any
later file summary leaves that value unchanged. -/
theorem merge_first_writer_wins : (fs : List (String × String)) →
    (combined : List (String × String)) → (k v : String) →
    lookup combined k = some v → stripWs v.data ≠ [] →
    lookup (mergeInto combined fs) k = some v
  | [], _, _, _, hv, _ => hv
  | kv :: fs, combined, k, v, hv, hne => by
    have hstep : lookup (mergeStep combined kv) k = some v := by
      unfold mergeStep
      obtain ⟨k2, v2⟩ := kv
      by_cases hk : k2 = k
      · subst hk
        rw [hv]
        have he : (stripWs v.data).isEmpty = false := by
          cases hemp : (stripWs v.data).isEmpty
          · rfl
          · exact absurd (List.isEmpty_iff.mp hemp) hne
        show lookup
          (if (stripWs v.data).isEmpty = true then setKey combined k2 v2
           else combined) k2 = some v
        rw [he, if_neg (by simp)]
        exact hv
      · cases hl : lookup combined k2 with
        | none =>
          show lookup (setKey combined k2 v2) k = some v
          rw [lookup_setKey, if_neg hk]
          exact hv
        | some old =>
          show lookup
            (if (stripWs old.data).isEmpty = true then setKey combined k2 v2
             else combined) k = some v
          by_cases hemp : (stripWs old.data).isEmpty = true
          · rw [if_pos hemp, lookup_setKey, if_neg hk]
            exact hv
          · rw [if_neg hemp]
            exact hv
    exact merge_first_writer_wins fs (mergeStep combined kv) k v hstep hne

/-- Witness for C4, encoding the example of the claim: document A yields
Claim Amount 50000, document B yields 60000, A is merged first, and the
combined summary retains 50000. -/
theorem merge_first_writer_wins_witness :
    lookup (mergeInto [] [("Claim Amount", "50000")]) "Claim Amount" =
      some "50000" ∧
    stripWs "50000".data ≠ [] ∧
    lookup (mergeInto (mergeInto [] [("Claim Amount", "50000")])
        [("Claim Amount", "60000")]) "Claim Amount" = some "50000" :=
  ⟨by decide, by decide,
    merge_first_writer_wins [("Claim Amount", "60000")]
      (mergeInto [] [("Claim Amount", "50000")]) "Claim Amount" "50000"
      (by decide) (by decide)⟩

/-- C5: for monetary fields (matched case-insensitively), a cleaned bare
number is prefixed with `Rs. `: the general prefix law for both numeric
shapes, the two round-trip examples of the claim (`12345` reformatted with a
thousands separator, `12,345.00` preserved verbatim), no double-prefixing of
a value already carrying `Rs.`, and the behaviour inside `extract_summary`
for the field name in its configured case and in a different case. -/
theorem money_field_rs_prefixing :
    (∀ v : List Char, (matchMoneyGrouped v || matchMoneyPlain v) = true →
        ∃ rest, moneyNormalize v = "Rs. ".data ++ rest) ∧
    moneyNormalize "12345".data = "Rs. 12,345".data ∧
    moneyNormalize "12,345.00".data = "Rs. 12,345.00".data ∧
    moneyNormalize "Rs. 12,345.00".data = "Rs. 12,345.00".data ∧
    extract_summary "Claim Amount: 12345" [("Claim Amount", [patC5])] =
      [("Claim Amount", "Rs. 12,345")] ∧
    extract_summary "Claim Amount: 12345" [("claim AMOUNT", [patC5])] =
      [("claim AMOUNT", "Rs. 12,345")] := by
  refine ⟨?_, by decide, by decide, by decide, by decide, by decide⟩
  intro v h
  unfold moneyNormalize
  by_cases h1 : matchMoneyGrouped v = true
  · rw [if_pos h1]
    exact ⟨v, rfl⟩
  · have h2 : matchMoneyPlain v = true := by
      simp only [Bool.or_eq_true] at h
      exact h.resolve_left h1
    rw [if_neg h1, if_pos h2]
    exact ⟨groupDigits (intPartNat v), rfl⟩

/-- Witness for C5 at the concrete bare number of the claim. -/
theorem money_field_rs_prefixing_witness :
    ∃ rest, moneyNormalize "12345".data = "Rs. ".data ++ rest :=
  money_field_rs_prefixing.1 "12345".data (by decide)

/-- Counterexample to C7: with the groupless pattern `Nationality` matching
the text `Nationality`, `extract_field` returns the non-blank value
`Nationality`, the skip test passes, and the trailing-boilerplate strip then
erases the whole value, so `extract_summary` stores the empty string. -/
theorem extract_summary_stores_empty_value :
    extract_summary "Nationality" [("Remarks", [patC7])] = [("Remarks", "")] ∧
    lookup (extract_summary "Nationality" [("Remarks", [patC7])]) "Remarks" =
      some "" := by
  constructor
  · decide
  · decide

theorem extract_summary_go_stripped : (fields : List (String × List Pat)) →
    (text : String) → (acc : List (String × String)) →
    (∀ k v, lookup acc k = some v → stripWs v.data = v.data) →
    ∀ k v, lookup (extract_summary_go text fields acc) k = some v →
    stripWs v.data = v.data
  | [], _, _, hinv, k, v, h => hinv k v h
  | (name, pats) :: rest, text, acc, hinv, k, v, h => by
    by_cases hskip : (stripWs (extract_field text pats).data).isEmpty = true
    · refine extract_summary_go_stripped rest text acc hinv k v ?_
      simp only [extract_summary_go] at h
      rw [if_pos hskip] at h
      exact h
    · refine extract_summary_go_stripped rest text
        (setKey acc name (postProcessValue name (extract_field text pats)))
        ?_ k v ?_
      · intro k3 v3 h3
        rw [lookup_setKey] at h3
        by_cases hk3 : name = k3
        · rw [if_pos hk3] at h3
          have hv3 : postProcessValue name (extract_field text pats) = v3 := by
            injection h3
          rw [← hv3]
          exact postProcessValue_stripFixed name (extract_field text pats)
        · rw [if_neg hk3] at h3
          exact hinv k3 v3 h3
      · simp only [extract_summary_go] at h
        rw [if_neg hskip] at h
        exact h

/-- C7 amended: every value stored by `extract_summary` carries no leading or
trailing whitespace (so it is never whitespace-only while non-empty), because
the skip test applies to the value before post-processing and every
post-processing path ends in a strip; the stored value can however be the
empty string when the trailing-boilerplate strip erases the whole value. -/
theorem extract_summary_values_trimmed (text : String)
    (fields : List (String × List Pat)) (k v : String)
    (h : lookup (extract_summary text fields) k = some v) :
    stripWs v.data = v.data :=
  extract_summary_go_stripped fields text []
    (fun _ _ hq => by simp [lookup] at hq) k v h

/-- Witness for the amended C7 at a concrete text and configuration. -/
theorem extract_summary_values_trimmed_witness :
    lookup (extract_summary "Hello World" [("Greeting", [patC7b])]) "Greeting" =
      some "Hello World" ∧
    stripWs "Hello World".data = "Hello World".data :=
  ⟨by decide,
    extract_summary_values_trimmed "Hello World" [("Greeting", [patC7b])]
      "Greeting" "Hello World" (by decide)⟩

theorem billLoop_spec : (rows : List (List (List Char))) → (f : List Char) →
    (t : Nat) →
    billLoop rows f t =
      (f ++ ((rows.filter billRowOk).map billRowLine).flatten,
        t + ((rows.filter billRowOk).map billRowPaise).sum)
  | [], f, t => by simp [billLoop]
  | row :: rest, f, t => by
    cases h : billRowOk row with
    | true =>
      simp only [billLoop, h, if_true, List.filter_cons, List.map_cons,
        List.flatten_cons, List.sum_cons]
      rw [billLoop_spec rest (f ++ billRowLine row) (t + billRowPaise row)]
      simp [List.append_assoc, Nat.add_assoc]
    | false =>
      simp only [billLoop, h, List.filter_cons]
      simp only [Bool.false_eq_true, if_false]
      exact billLoop_spec rest f t

theorem billFormat_spec (rows : List (List (List Char))) :
    billFormat rows = specBillOutput rows := by
  simp only [billFormat, specBillOutput, billLoop_spec rows [] 0,
    List.nil_append, Nat.zero_add]
  by_cases hp : 0 < ((rows.filter billRowOk).map billRowPaise).sum
  · rw [if_pos hp, if_pos hp, List.append_assoc]
  · rw [if_neg hp, if_neg hp, List.append_nil]

/-- C6 amended: whenever the bill-items recogniser (pattern 1) matches at
least one row of the preprocessed input, the output is exactly one
`- description: Rs. amount` line per row whose amount (with thousands
separators removed) is fully numeric — rows with non-numeric amounts are
omitted from output and total — followed by a final `- Total: Rs. sum` line
exactly when the sum of the accepted amounts is positive (the total line is
omitted when the accepted amounts sum to zero); on the concrete input of the
claim the output is the three expected lines. -/
theorem raw_block_bill_items :
    (∀ fv : String, findall patternBill 3 (preprocessRaw fv.data) ≠ [] →
        extract_and_format_raw_block fv =
          String.mk (specBillOutput (findall patternBill 3 (preprocessRaw fv.data)))) ∧
    extract_and_format_raw_block "1 \"Room Rent\" 1500\n2 \"Medicine\" 300" =
      "- Room Rent: Rs. 1,500\n- Medicine: Rs. 300\n- Total: Rs. 1,800" := by
  constructor
  · intro fv h
    by_cases hfv : fv = ""
    · subst hfv
      exact absurd (by decide) h
    · have hb : (!(findall patternBill 3 (preprocessRaw fv.data)).isEmpty) = true := by
        cases he : (findall patternBill 3 (preprocessRaw fv.data)).isEmpty
        · rfl
        · exact absurd (List.isEmpty_iff.mp he) h
      simp only [extract_and_format_raw_block, if_neg hfv]
      rw [if_pos hb]
      exact congrArg String.mk (billFormat_spec _)
  · decide

/-- Counterexample to C6 as stated: on the input with a single bill row of
amount zero, the recogniser matches the row, the row line is emitted, and
the claimed final `- Total: Rs. sum` line is absent, because the code only
appends the total line when the accumulated total is positive. -/
theorem raw_block_zero_total_counterexample :
    findall patternBill 3 (preprocessRaw ("1 \"X\" 0" : String).data) ≠ [] ∧
    extract_and_format_raw_block "1 \"X\" 0" = "- X: Rs. 0\n" ∧
    hasSubstr ("- X: Rs. 0\n").data "- Total".data = false := by
  refine ⟨by decide, by decide, by decide⟩

/-- Witness for the amended C6 at the concrete input of the claim. -/
theorem raw_block_bill_items_witness :
    findall patternBill 3
        (preprocessRaw ("1 \"Room Rent\" 1500\n2 \"Medicine\" 300" : String).data) ≠ [] ∧
    extract_and_format_raw_block "1 \"Room Rent\" 1500\n2 \"Medicine\" 300" =
      String.mk (specBillOutput (findall patternBill 3
        (preprocessRaw ("1 \"Room Rent\" 1500\n2 \"Medicine\" 300" : String).data))) :=
  ⟨by decide, raw_block_bill_items.1 "1 \"Room Rent\" 1500\n2 \"Medicine\" 300" (by decide)⟩

/-- Counterexample to C8: under a section titled `Claim Details`, the field
`Claim Type` is caught by the generic section-prefix shortening branch (line
627 of the source) before the exclusion branch of line 629 is ever reached,
so a plain `label: value` line is rendered for it. -/
theorem excluded_field_rendered_counterexample :
    renderSections [("Claim Details", ["Claim Type"])]
        [("Claim Type", "Reimbursement Claim")] =
      "\n### Claim Details\n- Type: Reimbursement Claim\n" ∧
    containsStr "\n### Claim Details\n- Type: Reimbursement Claim\n"
      "- Type: Reimbursement Claim" = true := by
  constructor
  · decide
  · decide

/-- C8 amended: the fields `FIR Status`, `Hospital Type Network`,
`Cashless Facility Availed` and `Claim Type` are excluded from rendering
(they contribute no line) exactly in the sections where no earlier
field-name-shortening branch applies to them; the exclusion is an `elif` of
the shortening chain, so a matching shortening branch (for example the
section-title-prefix rule) renders the field anyway. -/
theorem excluded_field_skipped (heading field value : String)
    (hf : field ∈ excludedFields) (hr : shortFieldRule heading field = none) :
    renderField heading field value = none := by
  simp only [renderField, hr, if_pos hf]

/-- Witness for the amended C8: `FIR Status` under a section whose title
triggers no shortening branch is skipped. -/
theorem excluded_field_skipped_witness :
    ("FIR Status" : String) ∈ excludedFields ∧
    shortFieldRule "Police & Authority Information" "FIR Status" = none ∧
    renderField "Police & Authority Information" "FIR Status" "Yes" = none :=
  ⟨by decide, by decide,
    excluded_field_skipped "Police & Authority Information" "FIR Status" "Yes"
      (by decide) (by decide)⟩

end ClaimSum
